import Mathlib

/-!
Verification of the repository-synchronization pipeline of pkgfile's
`src/update.c` (configuration parser, URL templating, mirror-fallback
downloader, archive transcoder, sync orchestrator) against its
natural-language specification.

Strings are modelled as `List Char`; the line-oriented config parser, the
download loop, the transcode loop and the orchestrator loop are embedded as
explicit state-passing functions.  `Option` results signal undefined
behaviour in the C source (out-of-bounds array accesses, `NULL` passed to
string functions); `none` means the C program's behaviour is undefined on
that input.
-/

namespace Pkgfile

/-- Shorthand turning a string literal into the `List Char` the model works on. -/
def cs (s : String) : List Char := s.toList

/-- C `isspace` on the characters the config files can contain. -/
def isSpace (c : Char) : Bool :=
  c == ' ' || c == '\t' || c == '\n' || c == '\x0b' || c == '\x0c' || c == '\r'

/-- Modelled from the spec: `strtrim` lives in `util.c`, which is not part of
the provided source; per the spec, lines are processed "with leading/trailing
whitespace trimmed" (in place, as the call sites `*strtrim(line)` require). -/
def strtrim (l : List Char) : List Char :=
  ((l.dropWhile isSpace).reverse.dropWhile isSpace).reverse

/-- `strchr(line, '#')` followed by `*ptr = '\0'`: everything from the first
`#` on is discarded. -/
def stripComment (l : List Char) : List Char :=
  l.takeWhile (fun c => c != '#')

/-- Left-to-right replace-all scan, fuelled (structurally recursive) so that it
reduces inside the kernel; the fuel is always at least the length of the
remaining string. -/
def strreplaceAux (pat repl : List Char) : Nat → List Char → List Char
  | _, [] => []
  | 0, s => s
  | fuel + 1, c :: t =>
    if pat ≠ [] ∧ pat.isPrefixOf (c :: t) then
      repl ++ strreplaceAux pat repl fuel ((c :: t).drop pat.length)
    else
      c :: strreplaceAux pat repl fuel t

/-- Modelled from the spec: `strreplace` lives in `util.c`, which is not part
of the provided source; per the spec it substitutes "every occurrence of the
literal token" by a left-to-right scan. -/
def strreplace (pat repl : List Char) (s : List Char) : List Char :=
  strreplaceAux pat repl s.length s

/-- C `strstr(s, pat) != NULL`: `pat` occurs somewhere in `s`. -/
def hasSubstr (pat : List Char) : List Char → Bool
  | [] => pat.isPrefixOf ([] : List Char)
  | c :: t => if pat.isPrefixOf (c :: t) then true else hasSubstr pat t

/-- The literal token `$arch` of `prepare_url`. -/
def archvar : List Char := ['$', 'a', 'r', 'c', 'h']

/-- The literal token `$repo` of `prepare_url`. -/
def repovar : List Char := ['$', 'r', 'e', 'p', 'o']

/-- The suffix `".files"` every download-loop call passes to `prepare_url`. -/
def filesSuffix : List Char := ['.', 'f', 'i', 'l', 'e', 's']

/-- `prepare_url` from `src/update.c` lines 94-122: replace `$arch` (only if
present, via the `strstr` guard), then `$repo` (again guarded), then append
`"/<repo><suffix>"` (the `asprintf("%s/%s%s", ...)`). -/
def prepare_url (url repo arch suffix : List Char) : List Char :=
  let s1 := if hasSubstr archvar url then strreplace archvar arch url else url
  let s2 := if hasSubstr repovar s1 then strreplace repovar repo s1 else s1
  s2 ++ '/' :: (repo ++ suffix)

lemma strreplaceAux_of_not_hasSubstr (pat repl : List Char) :
    ∀ (fuel : Nat) (s : List Char), hasSubstr pat s = false →
      strreplaceAux pat repl fuel s = s := by
  intro fuel
  induction fuel with
  | zero => intro s _; cases s <;> rfl
  | succ fuel ih =>
    intro s h
    cases s with
    | nil => rfl
    | cons c t =>
      rw [hasSubstr] at h
      by_cases hp : pat.isPrefixOf (c :: t)
      · rw [if_pos hp] at h; exact absurd h (by simp)
      · rw [if_neg hp] at h
        rw [strreplaceAux, if_neg (by simp [hp]), ih t h]

lemma strreplace_of_not_hasSubstr (pat repl : List Char) (s : List Char)
    (h : hasSubstr pat s = false) : strreplace pat repl s = s :=
  strreplaceAux_of_not_hasSubstr pat repl s.length s h

example :
    prepare_url (cs "https://example.org/$repo/os/$arch") (cs "core")
      (cs "x86_64") (cs ".files")
      = cs "https://example.org/core/os/x86_64/core.files" := by decide

/-! ## Configuration parser (`find_active_repos`, `add_servers_from_include`) -/

/-- The key `Server`. -/
def serverTok : List Char := ['S', 'e', 'r', 'v', 'e', 'r']

/-- The key `Include`. -/
def includeTok : List Char := ['I', 'n', 'c', 'l', 'u', 'd', 'e']

/-- The reserved section name `options`. -/
def optionsTok : List Char := ['o', 'p', 't', 'i', 'o', 'n', 's']

/-- `struct repo_t`: a repository name and its ordered server list. -/
structure repo_t where
  name : List Char
  servers : List (List Char)
deriving DecidableEq, Repr

/-- `repo_new`: a fresh repository with no servers. -/
def repo_new (n : List Char) : repo_t := ⟨n, []⟩

/-- `repo_add_server`: append one server URL template. -/
def repo_add_server (r : repo_t) (v : List Char) : repo_t :=
  { r with servers := r.servers ++ [v] }

/-- The filesystem seen by `fopen` inside the parser: a file name resolves to
its list of lines, or to `none` when the file cannot be opened. -/
def Fs : Type := List Char → Option (List (List Char))

/-- `line[0] == '[' && line[strlen(line) - 1] == ']'` on a (trimmed, nonempty)
line. -/
def isHeader (l : List Char) : Bool :=
  l.head? == some '[' && l.getLast? == some ']'

/-- `strndup(&line[1], strlen(line) - 2)`: the text between the brackets. -/
def sectionName (l : List Char) : List Char := (l.drop 1).dropLast

/-- Index of the first `=` in a line (`strchr`/`strsep` separator position). -/
def idxOfEq : List Char → Option Nat
  | [] => none
  | c :: t => if c == '=' then some 0 else (idxOfEq t).map (· + 1)

/-- `line_get_val`: `strsep` at the first `=` and trim what follows.  When the
line holds no `=`, `strsep` leaves the out-pointer `NULL` and the subsequent
`strtrim`/`strdup` dereference it: undefined behaviour, modelled as `none`. -/
def line_get_val (l : List Char) : Option (List Char) :=
  match idxOfEq l with
  | none => none
  | some i => some (strtrim (l.drop (i + 1)))

/-- The `key`/`val` split of `find_active_repos`: text before the first `=`
(trimmed) and text after it (trimmed); `none` when the line has no `=`. -/
def kvOf (l : List Char) : Option (List Char × List Char) :=
  match idxOfEq l with
  | none => none
  | some i => some (strtrim (l.take i), strtrim (l.drop (i + 1)))

/-- Split a list into its initial segment and last element (the
`active_repos[*repocount - 1]` access plus write-back). -/
def splitLastRepos : List repo_t → Option (List repo_t × repo_t)
  | [] => none
  | r :: rest =>
    match splitLastRepos rest with
    | none => some ([], r)
    | some p => some (r :: p.1, p.2)

/-- One line of `add_servers_from_include` (`src/update.c` lines 144-156):
strip comment, trim, skip blanks, and on a line whose *prefix* is `Server`
(the `strncmp(line, server, strlen(server))`) append the text after the first
`=`.  A prefix-matching line without `=` makes `line_get_val` hand `NULL` to
`repo_add_server`: undefined behaviour, modelled as `none`. -/
def include_line (r : repo_t) (raw : List Char) : Option repo_t :=
  let l := strtrim (stripComment raw)
  if l = [] then some r
  else if serverTok.isPrefixOf l then
    match line_get_val l with
    | some v => some (repo_add_server r v)
    | none => none
  else some r

/-- The `fgets` loop of `add_servers_from_include`. -/
def include_lines (r : repo_t) : List (List Char) → Option repo_t
  | [] => some r
  | raw :: rest =>
    match include_line r raw with
    | none => none
    | some r2 => include_lines r2 rest

/-- `add_servers_from_include` (`src/update.c` lines 131-161): when the file
cannot be opened it reports the error (`perror`) and returns with the
repository unchanged; otherwise it scans the file's lines. -/
def add_servers_from_include (fs : Fs) (r : repo_t) (file : List Char) :
    Option repo_t :=
  match fs file with
  | none => some r
  | some ls => include_lines r ls

/-- The transient parser state of `find_active_repos`: the repository array
built so far and the `in_options` flag. -/
structure ParserState where
  repos : List repo_t
  in_options : Bool
deriving DecidableEq, Repr

/-- The `key=value` tail of the `find_active_repos` loop body (`src/update.c`
lines 207-216).  `Server`/`Include` act on `active_repos[*repocount - 1]`;
when `*repocount == 0` that is an out-of-bounds read of the (then `NULL`)
repository array — undefined behaviour, modelled as `none`. -/
def kv_line (fs : Fs) (st : ParserState) (l : List Char) : Option ParserState :=
  match kvOf l with
  | none => some st
  | some kv =>
    if kv.1 = serverTok then
      match splitLastRepos st.repos with
      | none => none
      | some p => some { st with repos := p.1 ++ [repo_add_server p.2 kv.2] }
    else if kv.1 = includeTok then
      match splitLastRepos st.repos with
      | none => none
      | some p =>
        (add_servers_from_include fs p.2 kv.2).map
          (fun r2 => { st with repos := p.1 ++ [r2] })
    else some st

/-- One iteration of the `fgets` loop of `find_active_repos` (`src/update.c`
lines 181-217): strip comment, trim, skip blanks; a `[name]` header either
sets `in_options` (and `continue`s) or appends a fresh repository and *falls
through* to the `key=value` check; otherwise `key=value` lines are handled
unless `in_options` is set. -/
def stepLine (fs : Fs) (st : ParserState) (raw : List Char) :
    Option ParserState :=
  let l := strtrim (stripComment raw)
  if l = [] then some st
  else if isHeader l then
    (if sectionName l = optionsTok then some { st with in_options := true }
     else kv_line fs
       { repos := st.repos ++ [repo_new (sectionName l)], in_options := false } l)
  else if st.in_options then some st
  else kv_line fs st l

/-- The whole `fgets` loop. -/
def parse_lines (fs : Fs) (st : ParserState) :
    List (List Char) → Option ParserState
  | [] => some st
  | raw :: rest =>
    match stepLine fs st raw with
    | none => none
    | some st2 => parse_lines fs st2 rest

/-- `find_active_repos` (`src/update.c` lines 163-223) on the lines of an
already-opened top-level file: the repository array it returns, or `none`
when the run hits undefined behaviour. -/
def find_active_repos (fs : Fs) (lines : List (List Char)) :
    Option (List repo_t) :=
  (parse_lines fs ⟨[], false⟩ lines).map ParserState.repos

/-- An all-unopenable filesystem (used by concrete counterexamples). -/
def fs0 : Fs := fun _ => none

/-- An include filesystem holding one file `inc` whose only line's key is
`Servers` — not exactly `Server`. -/
def fs6 : Fs := fun file => if file = cs "inc" then some [cs "Servers=foo"] else none

/-- An include filesystem where `inc` resolves to a small included file
mixing a header, a `Server=` line, a comment, a prefix-matching `Servers=`
line and an unrelated key; everything else — in particular `missing` —
fails to open. -/
def fs9w : Fs := fun file =>
  if file = cs "inc" then
    some [cs "[sec]", cs "Server = u1", cs "# c", cs "Servers=u2", cs "Other=z"]
  else none

/-! ## Downloader (`download_repo_files`, `unlink_files_dbfile`) -/

/-- The observable actions of the download loop: `unlink_files_dbfile` for a
repository name, a fetch attempt on a URL (`alpm_fetch_pkgurl`), and the
failure warning naming the URL. -/
inductive DlEvent where
  | unlink : List Char → DlEvent
  | fetch : List Char → DlEvent
  | warn : List Char → DlEvent
deriving DecidableEq, Repr

/-- Outcome of `download_repo_files`: its return value, the ordered action
trace, and the final state of the cached `<name>.files` file (`some u` =
the file fetched from URL `u` is in the cache, `none` = no file). -/
structure DlRun where
  ret : Int
  events : List DlEvent
  cache : Option (List Char)
deriving DecidableEq, Repr

/-- The `for` loop of `download_repo_files` (`src/update.c` lines 242-260):
for each server in order, build the URL, unlink the cached file, fetch; on
failure warn and continue, on success return 0 at once.  Falling off the end
returns 1.  `fetchF` is the external fetch collaborator. -/
def download_loop (fetchF : List Char → Bool) (arch name : List Char)
    (cache : Option (List Char)) : List (List Char) → DlRun
  | [] => { ret := 1, events := [], cache := cache }
  | s :: rest =>
    let url := prepare_url s name arch filesSuffix
    if fetchF url then
      { ret := 0, events := [.unlink name, .fetch url], cache := some url }
    else
      let r := download_loop fetchF arch name none rest
      { ret := r.ret,
        events := .unlink name :: .fetch url :: .warn url :: r.events,
        cache := r.cache }

/-- `download_repo_files` (`src/update.c` lines 234-263). -/
def download_repo_files (fetchF : List Char → Bool) (arch : List Char)
    (repo : repo_t) (cache : Option (List Char)) : DlRun :=
  download_loop fetchF arch repo.name cache repo.servers

/-- The expanded URLs of a repository's servers, in configuration order. -/
def dl_urls (arch : List Char) (repo : repo_t) : List (List Char) :=
  repo.servers.map (fun s => prepare_url s repo.name arch filesSuffix)

/-- URLs of the fetch attempts in an action trace, in order. -/
def fetchedUrls : List DlEvent → List (List Char)
  | [] => []
  | .fetch u :: t => u :: fetchedUrls t
  | _ :: t => fetchedUrls t

/-- URLs named by warnings in an action trace, in order. -/
def warnedUrls : List DlEvent → List (List Char)
  | [] => []
  | .warn u :: t => u :: warnedUrls t
  | _ :: t => warnedUrls t

/-- The trace the download loop is expected to produce on a given attempt
list: unlink, then fetch, then (on failure only) a warning, per URL. -/
def dl_expected_events (fetchF : List Char → Bool) (name : List Char)
    (us : List (List Char)) : List DlEvent :=
  us.flatMap (fun u =>
    .unlink name :: .fetch u :: (if fetchF u then [] else [.warn u]))

/-! ## Archive transcoder (`decompress_repo_file`) -/

/-- One `archive_read_data` chunk: its byte count and whether the matching
`archive_write_data` writes it completely. -/
structure DataChunk where
  size : Nat
  writeOk : Bool
deriving DecidableEq, Repr

/-- One archive entry: whether `archive_write_header` succeeds, and the data
chunks `archive_read_data` yields before returning 0. -/
structure ArEntry where
  hdrOk : Bool
  chunks : List DataChunk
deriving DecidableEq, Repr

/-- What gets written to the output archive: a header or a data block. -/
inductive WItem where
  | hdr : WItem
  | data : Nat → WItem
deriving DecidableEq, Repr

/-- Contents of a file in the cache directory: the raw downloaded archive, or
a (possibly partial) transcoded CPIO stream. -/
inductive FileData where
  | raw : FileData
  | transcoded : List WItem → FileData
deriving DecidableEq, Repr

/-- Environment of one `decompress_repo_file` run: whether the two
`archive_*_open_filename` calls succeed, the entries the reader yields, and
whether the final `rename` succeeds. -/
structure TcEnv where
  readOpenOk : Bool
  writeOpenOk : Bool
  entries : List ArEntry
  renameOk : Bool
deriving DecidableEq, Repr

/-- Outcome of `decompress_repo_file`: its return value and the final
contents of `<name>.files` (canonical) and `<name>.files~` (temporary). -/
structure TcResult where
  ret : Int
  canonical : Option FileData
  tmpfile : Option FileData
deriving DecidableEq, Repr

/-- The inner `for(;;)` copy loop (`src/update.c` lines 314-326): data blocks
written, and `false` when a write failed (`done = 1`). -/
def copy_data : List DataChunk → List WItem × Bool
  | [] => ([], true)
  | c :: rest =>
    if c.writeOk then
      let r := copy_data rest
      (.data c.size :: r.1, r.2)
    else ([], false)

/-- The outer `while(archive_read_next_header(...))` loop (`src/update.c`
lines 307-330): items written to the output, and `false` when the loop was
broken by a header-write or data-write failure. -/
def transcode_entries : List ArEntry → List WItem × Bool
  | [] => ([], true)
  | e :: rest =>
    if e.hdrOk then
      let d := copy_data e.chunks
      if d.2 then
        let r := transcode_entries rest
        (.hdr :: (d.1 ++ r.1), r.2)
      else (.hdr :: d.1, false)
    else ([], false)

/-- `decompress_repo_file` (`src/update.c` lines 265-347).  After either open
failure it `goto done`s with the nonzero archive error (stand-in `-30`,
`ARCHIVE_FATAL`).  Otherwise — and this includes runs whose copy loop was
broken by a write failure — it falls through `ret = 0`, renames the temporary
over the canonical file when `rename` succeeds (leaving the temporary as the
canonical content), and returns `ret`. -/
def decompress_repo_file (env : TcEnv) (canonical tmp0 : Option FileData) :
    TcResult :=
  if env.readOpenOk = false then ⟨-30, canonical, tmp0⟩
  else if env.writeOpenOk = false then ⟨-30, canonical, tmp0⟩
  else
    let written := (transcode_entries env.entries).1
    if env.renameOk then ⟨0, some (.transcoded written), none⟩
    else ⟨0, canonical, some (.transcoded written)⟩

/-- The transcode environment of the C1 failing input: two entries, the
first (one 10-byte chunk) transcodes fine, writing the second entry's 5-byte
data chunk fails; both opens and the rename succeed. -/
def tcFailEnv : TcEnv :=
  { readOpenOk := true, writeOpenOk := true,
    entries := [⟨true, [⟨10, true⟩]⟩, ⟨true, [⟨5, false⟩]⟩],
    renameOk := true }

/-! ## Orchestrator (`nosr_update`) -/

/-- Outcome of `nosr_update`: the exit status, the repositories for which the
download stage was invoked, and those for which the transcode stage was
invoked. -/
structure UpdResult where
  ret : Int
  attempted : List repo_t
  transcoded : List repo_t
deriving DecidableEq, Repr

/-- The per-repository loop of `nosr_update` (`src/update.c` lines 376-385):
`r = download(...); if(r == 0) r = decompress(...); if(r != 0) ret = r;`,
continuing through the whole list. -/
def upd_loop (dl tc : repo_t → Int) (acc : UpdResult) :
    List repo_t → UpdResult
  | [] => acc
  | repo :: rest =>
    let r := dl repo
    let acc2 :=
      if r = 0 then
        let r2 := tc repo
        { ret := if r2 ≠ 0 then r2 else acc.ret,
          attempted := acc.attempted ++ [repo],
          transcoded := acc.transcoded ++ [repo] }
      else
        { ret := r,
          attempted := acc.attempted ++ [repo],
          transcoded := acc.transcoded }
    upd_loop dl tc acc2 rest

/-- `nosr_update` (`src/update.c` lines 349-390): fail with 1 when the cache
directory is unwritable (`access(CACHEPATH, W_OK)`) or `alpm_initialize`
fails; otherwise run the per-repository loop over the whole list. -/
def nosr_update (cacheWritable alpmOk : Bool) (dl tc : repo_t → Int)
    (repos : List repo_t) : UpdResult :=
  if cacheWritable = false then ⟨1, [], []⟩
  else if alpmOk = false then ⟨1, [], []⟩
  else upd_loop dl tc ⟨0, [], []⟩ repos

/-! ## Derived descriptions of the parser used by the theorems -/

/-- The values contributed by an included file, in file order: one per line
whose stripped/trimmed form has `Server` as a prefix, taking the text after
the line's first `=`. -/
def includeContrib : List (List Char) → List (List Char)
  | [] => []
  | raw :: rest =>
    let l := strtrim (stripComment raw)
    if l = [] then includeContrib rest
    else if serverTok.isPrefixOf l then
      match line_get_val l with
      | some v => v :: includeContrib rest
      | none => includeContrib rest
    else includeContrib rest

/-- The repository name a config line creates, if any: a non-blank,
non-`options` section header. -/
def sectionNameOf? (raw : List Char) : Option (List Char) :=
  let l := strtrim (stripComment raw)
  if l = [] then none
  else if isHeader l then
    (if sectionName l = optionsTok then none else some (sectionName l))
  else none

/-- All repository names a config file creates, in file order. -/
def sectionNamesOf (lines : List (List Char)) : List (List Char) :=
  lines.filterMap sectionNameOf?

/-! ## Helper lemmas -/

lemma splitLastRepos_eq_none : ∀ rs : List repo_t,
    splitLastRepos rs = none ↔ rs = [] := by
  intro rs
  cases rs with
  | nil => simp [splitLastRepos]
  | cons r rest =>
    rw [splitLastRepos]
    cases splitLastRepos rest <;> simp

lemma splitLastRepos_eq : ∀ (rs : List repo_t) (p : List repo_t × repo_t),
    splitLastRepos rs = some p → rs = p.1 ++ [p.2] := by
  intro rs
  induction rs with
  | nil => intro p h; simp [splitLastRepos] at h
  | cons r rest ih =>
    intro p h
    rw [splitLastRepos] at h
    cases hs : splitLastRepos rest with
    | none =>
      rw [hs] at h
      have hrest : rest = [] := (splitLastRepos_eq_none rest).mp hs
      cases h
      simp [hrest]
    | some q =>
      rw [hs] at h
      cases h
      simp [ih q hs]

lemma splitLastRepos_isSome (rs : List repo_t) (h : rs ≠ []) :
    ∃ p, splitLastRepos rs = some p := by
  cases hs : splitLastRepos rs with
  | none => exact absurd ((splitLastRepos_eq_none rs).mp hs) h
  | some p => exact ⟨p, rfl⟩

lemma parse_lines_append (fs : Fs) :
    ∀ (xs ys : List (List Char)) (st : ParserState),
      parse_lines fs st (xs ++ ys) =
        (parse_lines fs st xs).bind (fun st2 => parse_lines fs st2 ys) := by
  intro xs
  induction xs with
  | nil => intro ys st; rfl
  | cons x xs ih =>
    intro ys st
    simp only [List.cons_append, parse_lines]
    cases h : stepLine fs st x with
    | none => rfl
    | some st2 => exact ih ys st2

lemma include_lines_spec : ∀ (ls : List (List Char)) (r : repo_t),
    (∀ raw ∈ ls, serverTok.isPrefixOf (strtrim (stripComment raw)) = true →
      line_get_val (strtrim (stripComment raw)) ≠ none) →
    include_lines r ls
      = some { r with servers := r.servers ++ includeContrib ls } := by
  intro ls
  induction ls with
  | nil => intro r _; simp [include_lines, includeContrib]
  | cons raw rest ih =>
    intro r hok
    have hok1 := hok raw (by simp)
    have hokr : ∀ raw2 ∈ rest,
        serverTok.isPrefixOf (strtrim (stripComment raw2)) = true →
        line_get_val (strtrim (stripComment raw2)) ≠ none :=
      fun raw2 hm => hok raw2 (by simp [hm])
    rw [include_lines, include_line, includeContrib]
    by_cases hl : strtrim (stripComment raw) = []
    · simp only [hl, if_pos rfl]
      exact ih r hokr
    · simp only [if_neg hl]
      by_cases hp : serverTok.isPrefixOf (strtrim (stripComment raw)) = true
      · have hv := hok1 hp
        cases hval : line_get_val (strtrim (stripComment raw)) with
        | none => exact absurd hval hv
        | some v =>
          simp only [hp, hval, if_true]
          rw [ih (repo_add_server r v) hokr]
          simp [repo_add_server]
      · simp only [Bool.not_eq_true] at hp
        simp only [hp]
        exact ih r hokr

lemma include_line_name (r : repo_t) (raw : List Char) (r2 : repo_t)
    (h : include_line r raw = some r2) : r2.name = r.name := by
  rw [include_line] at h
  by_cases hl : strtrim (stripComment raw) = []
  · simp only [hl, if_pos rfl] at h
    cases h; rfl
  · simp only [if_neg hl] at h
    by_cases hp : serverTok.isPrefixOf (strtrim (stripComment raw)) = true
    · simp only [hp, if_pos rfl] at h
      cases hval : line_get_val (strtrim (stripComment raw)) with
      | none => rw [hval] at h; cases h
      | some v => rw [hval] at h; cases h; rfl
    · simp only [Bool.not_eq_true] at hp
      simp only [hp] at h
      cases h; rfl

lemma include_lines_name : ∀ (ls : List (List Char)) (r r2 : repo_t),
    include_lines r ls = some r2 → r2.name = r.name := by
  intro ls
  induction ls with
  | nil => intro r r2 h; cases h; rfl
  | cons raw rest ih =>
    intro r r2 h
    rw [include_lines] at h
    cases hi : include_line r raw with
    | none => rw [hi] at h; cases h
    | some rm =>
      rw [hi] at h
      exact (ih rm r2 h).trans (include_line_name r raw rm hi)

lemma add_servers_from_include_name (fs : Fs) (r : repo_t) (file : List Char)
    (r2 : repo_t) (h : add_servers_from_include fs r file = some r2) :
    r2.name = r.name := by
  rw [add_servers_from_include] at h
  cases hf : fs file with
  | none => rw [hf] at h; cases h; rfl
  | some ls => rw [hf] at h; exact include_lines_name ls r r2 h

lemma kv_line_names (fs : Fs) (st : ParserState) (l : List Char)
    (st2 : ParserState) (h : kv_line fs st l = some st2) :
    st2.repos.map repo_t.name = st.repos.map repo_t.name := by
  rw [kv_line] at h
  split at h
  · cases h; rfl
  · rename_i kv _hkv
    split at h
    · split at h
      · cases h
      · rename_i p hsp
        cases h
        rw [splitLastRepos_eq st.repos p hsp]
        simp [repo_add_server]
    · split at h
      · split at h
        · cases h
        · rename_i p hsp
          rw [Option.map_eq_some'] at h
          obtain ⟨r2, hr2, hst2⟩ := h
          have hname := add_servers_from_include_name fs p.2 kv.2 r2 hr2
          rw [← hst2, splitLastRepos_eq st.repos p hsp]
          simp [hname]
      · cases h; rfl

lemma stepLine_names (fs : Fs) (st : ParserState) (raw : List Char)
    (st2 : ParserState) (h : stepLine fs st raw = some st2) :
    st2.repos.map repo_t.name
      = st.repos.map repo_t.name ++ (sectionNameOf? raw).toList := by
  rw [stepLine] at h
  rw [sectionNameOf?]
  by_cases hl : strtrim (stripComment raw) = []
  · simp only [hl, if_pos rfl] at h ⊢
    cases h; simp
  · simp only [if_neg hl] at h ⊢
    by_cases hh : isHeader (strtrim (stripComment raw)) = true
    · simp only [hh, if_true] at h ⊢
      by_cases ho : sectionName (strtrim (stripComment raw)) = optionsTok
      · simp only [ho, if_pos rfl] at h ⊢
        cases h; simp
      · simp only [if_neg ho] at h ⊢
        have := kv_line_names fs _ _ _ h
        rw [this]
        simp [repo_new]
    · simp only [Bool.not_eq_true] at hh
      simp only [hh] at h ⊢
      by_cases hio : st.in_options = true
      · simp only [hio, if_true] at h
        cases h; simp
      · simp only [Bool.not_eq_true] at hio
        simp only [hio] at h
        rw [kv_line_names fs _ _ _ h]
        simp

lemma parse_lines_names (fs : Fs) : ∀ (lines : List (List Char))
    (st st2 : ParserState), parse_lines fs st lines = some st2 →
    st2.repos.map repo_t.name
      = st.repos.map repo_t.name ++ sectionNamesOf lines := by
  intro lines
  induction lines with
  | nil => intro st st2 h; cases h; simp [sectionNamesOf]
  | cons raw rest ih =>
    intro st st2 h
    rw [parse_lines] at h
    cases hs : stepLine fs st raw with
    | none => rw [hs] at h; cases h
    | some stM =>
      rw [hs] at h
      rw [ih stM st2 h, stepLine_names fs st raw stM hs]
      simp only [sectionNamesOf, List.filterMap_cons]
      cases sectionNameOf? raw <;> simp

/-! ### Download-loop lemmas -/

lemma download_loop_ret (fetchF : List Char → Bool) (arch name : List Char) :
    ∀ (servers : List (List Char)) (c0 : Option (List Char)),
      (download_loop fetchF arch name c0 servers).ret
        = if (servers.map (fun s => prepare_url s name arch filesSuffix)).any
              fetchF then 0 else 1 := by
  intro servers
  induction servers with
  | nil => intro c0; simp [download_loop]
  | cons s rest ih =>
    intro c0
    rw [download_loop]
    by_cases hf : fetchF (prepare_url s name arch filesSuffix) = true
    · simp [hf]
    · simp only [Bool.not_eq_true] at hf
      simp [hf, ih none]

lemma download_loop_fetched (fetchF : List Char → Bool)
    (arch name : List Char) :
    ∀ (servers : List (List Char)) (c0 : Option (List Char)),
      fetchedUrls (download_loop fetchF arch name c0 servers).events
        = (servers.map (fun s => prepare_url s name arch filesSuffix)).take
            (((servers.map (fun s => prepare_url s name arch
                filesSuffix)).takeWhile (fun u => !(fetchF u))).length + 1) := by
  intro servers
  induction servers with
  | nil => intro c0; simp [download_loop, fetchedUrls]
  | cons s rest ih =>
    intro c0
    rw [download_loop]
    by_cases hf : fetchF (prepare_url s name arch filesSuffix) = true
    · simp [hf, fetchedUrls, List.takeWhile_cons]
    · simp only [Bool.not_eq_true] at hf
      simp [hf, fetchedUrls, List.takeWhile_cons, ih none]

lemma download_loop_warned (fetchF : List Char → Bool)
    (arch name : List Char) :
    ∀ (servers : List (List Char)) (c0 : Option (List Char)),
      warnedUrls (download_loop fetchF arch name c0 servers).events
        = (servers.map (fun s => prepare_url s name arch
            filesSuffix)).takeWhile (fun u => !(fetchF u)) := by
  intro servers
  induction servers with
  | nil => intro c0; simp [download_loop, warnedUrls]
  | cons s rest ih =>
    intro c0
    rw [download_loop]
    by_cases hf : fetchF (prepare_url s name arch filesSuffix) = true
    · simp [hf, warnedUrls, List.takeWhile_cons]
    · simp only [Bool.not_eq_true] at hf
      simp [hf, warnedUrls, List.takeWhile_cons, ih none]

lemma download_loop_events (fetchF : List Char → Bool)
    (arch name : List Char) :
    ∀ (servers : List (List Char)) (c0 : Option (List Char)),
      (download_loop fetchF arch name c0 servers).events
        = dl_expected_events fetchF name
            ((servers.map (fun s => prepare_url s name arch filesSuffix)).take
              (((servers.map (fun s => prepare_url s name arch
                  filesSuffix)).takeWhile (fun u => !(fetchF u))).length + 1)) := by
  intro servers
  induction servers with
  | nil => intro c0; simp [download_loop, dl_expected_events]
  | cons s rest ih =>
    intro c0
    rw [download_loop]
    by_cases hf : fetchF (prepare_url s name arch filesSuffix) = true
    · simp [hf, List.takeWhile_cons, dl_expected_events]
    · simp only [Bool.not_eq_true] at hf
      simp [hf, List.takeWhile_cons, dl_expected_events, ih none]

lemma download_loop_cache_none (fetchF : List Char → Bool)
    (arch name : List Char) :
    ∀ servers : List (List Char),
      (servers.map (fun s => prepare_url s name arch filesSuffix)).any fetchF
          = false →
      (download_loop fetchF arch name none servers).cache = none := by
  intro servers
  induction servers with
  | nil => intro _; rfl
  | cons s rest ih =>
    intro h
    simp only [List.map_cons, List.any_cons, Bool.or_eq_false_iff] at h
    rw [download_loop]
    simp [h.1, ih h.2]

/-! ### Orchestrator-loop lemmas -/

lemma upd_loop_ret_eq_zero (dl tc : repo_t → Int) :
    ∀ (repos : List repo_t) (acc : UpdResult),
      (upd_loop dl tc acc repos).ret = 0 ↔
        (acc.ret = 0 ∧ ∀ r ∈ repos, dl r = 0 ∧ tc r = 0) := by
  intro repos
  induction repos with
  | nil => intro acc; simp [upd_loop]
  | cons repo rest ih =>
    intro acc
    rw [upd_loop]
    by_cases hd : dl repo = 0
    · by_cases ht : tc repo = 0
      · simp only [hd, ht, if_pos rfl, ne_eq, not_true_eq_false, if_false,
          ite_false]
        rw [ih]
        simp [hd, ht, and_assoc]
      · simp only [hd, if_pos rfl]
        rw [ih]
        simp [hd, ht]
    · simp only [if_neg hd]
      rw [ih]
      simp [hd]

lemma upd_loop_attempted (dl tc : repo_t → Int) :
    ∀ (repos : List repo_t) (acc : UpdResult),
      (upd_loop dl tc acc repos).attempted = acc.attempted ++ repos := by
  intro repos
  induction repos with
  | nil => intro acc; simp [upd_loop]
  | cons repo rest ih =>
    intro acc
    rw [upd_loop]
    by_cases hd : dl repo = 0 <;> simp [hd, ih]

lemma upd_loop_transcoded_mem (dl tc : repo_t → Int) :
    ∀ (repos : List repo_t) (acc : UpdResult) (r : repo_t),
      r ∈ (upd_loop dl tc acc repos).transcoded →
        r ∈ acc.transcoded ∨ dl r = 0 := by
  intro repos
  induction repos with
  | nil => intro acc r h; exact Or.inl h
  | cons repo rest ih =>
    intro acc r h
    rw [upd_loop] at h
    by_cases hd : dl repo = 0
    · simp only [hd, if_pos rfl] at h
      rcases ih _ r h with hm | hdl
      · rcases List.mem_append.mp hm with hm2 | hm2
        · exact Or.inl hm2
        · right
          rw [List.mem_singleton.mp hm2]
          exact hd
      · exact Or.inr hdl
    · simp only [if_neg hd] at h
      have := ih _ r h
      exact this

lemma nosr_update_ok (dl tc : repo_t → Int) (repos : List repo_t) :
    nosr_update true true dl tc repos = upd_loop dl tc ⟨0, [], []⟩ repos := rfl

lemma nosr_update_nocache (alpmOk : Bool) (dl tc : repo_t → Int)
    (repos : List repo_t) :
    nosr_update false alpmOk dl tc repos = ⟨1, [], []⟩ := rfl

lemma download_loop_cache_stale (fetchF : List Char → Bool)
    (arch name : List Char) (c0 : Option (List Char))
    (servers : List (List Char)) (hne : servers ≠ [])
    (ha : (servers.map (fun s => prepare_url s name arch filesSuffix)).any
        fetchF = false) :
    (download_loop fetchF arch name c0 servers).cache = none := by
  cases servers with
  | nil => exact absurd rfl hne
  | cons s rest =>
    simp only [List.map_cons, List.any_cons, Bool.or_eq_false_iff] at ha
    rw [download_loop]
    simp [ha.1, download_loop_cache_none fetchF arch name rest ha.2]

/-! ## Claim theorems -/

example :
    find_active_repos fs0 [cs "[core]", cs "Server = http://a", cs "# note",
      cs "Server=http://b"]
      = some [⟨cs "core", [cs "http://a", cs "http://b"]⟩] := by decide

example :
    find_active_repos fs0 [cs "[options]", cs "Server = http://a", cs "[x]"]
      = some [⟨cs "x", []⟩] := by decide

/-- C1 (refuted — code bug): on an archive whose transcode hits a data-write
failure partway (second conjunct: the copy loop really was broken off),
`decompress_repo_file` does NOT abort with failure: it returns 0, renames the
partial temporary over the canonical `<name>.files` (whose prior contents,
`FileData.raw`, are destroyed), because `ret = 0` is set unconditionally
after the copy loop (`src/update.c` line 334) and the rename at line 341 is
guarded only by `ret == 0`. -/
theorem decompress_write_failure_rotates_partial :
    (transcode_entries tcFailEnv.entries).2 = false ∧
    decompress_repo_file tcFailEnv (some .raw) none
      = ⟨0, some (.transcoded [.hdr, .data 10, .hdr]), none⟩ ∧
    (decompress_repo_file tcFailEnv (some .raw) none).canonical
      ≠ some .raw := by decide

/-- C2: `nosr_update` returns 0 iff every repository both downloaded and
transcoded successfully (both stage calls returned 0); it attempts every
repository regardless of earlier failures; and it returns 1 without
processing anything when the cache directory is unwritable. -/
theorem nosr_update_exit_status (dl tc : repo_t → Int) (repos : List repo_t) :
    ((nosr_update true true dl tc repos).ret = 0 ↔
      ∀ r ∈ repos, dl r = 0 ∧ tc r = 0)
    ∧ (nosr_update true true dl tc repos).attempted = repos
    ∧ (∀ alpmOk : Bool, (nosr_update false alpmOk dl tc repos).ret = 1) := by
  refine ⟨?_, ?_, ?_⟩
  · rw [nosr_update_ok, upd_loop_ret_eq_zero]
    simp
  · rw [nosr_update_ok, upd_loop_attempted]
    simp
  · intro alpmOk
    rw [nosr_update_nocache]

/-- Witness for C2 at a concrete run where both stages succeed. -/
theorem nosr_update_exit_status_witness :
    (nosr_update true true (fun _ => 0) (fun _ => 0)
      [⟨cs "core", []⟩]).ret = 0 :=
  (nosr_update_exit_status (fun _ => 0) (fun _ => 0) [⟨cs "core", []⟩]).1.mpr
    (fun _ _ => ⟨rfl, rfl⟩)

/-- C3 (refuted — code bug): a `Server=` line before any section header makes
`find_active_repos` evaluate `active_repos[*repocount - 1]` with
`*repocount == 0` — an out-of-bounds read of the (still `NULL`) repository
array, modelled as `none` — rather than discarding the line; the same file
without the line parses fine to the empty collection. -/
theorem server_before_section_oob :
    find_active_repos fs0 [cs "Server = http://foo"] = none ∧
    find_active_repos fs0 [] = some [] := by decide

/-- C4: the downloader tries the servers' URLs strictly in configuration
order and stops at the first success (the fetch trace is exactly the URL
list cut one past its failing prefix, so each server is attempted at most
once), warns exactly on each failed fetch naming its URL, and returns 0
exactly when some server's URL fetches successfully. -/
theorem download_mirror_fallback (fetchF : List Char → Bool)
    (arch : List Char) (repo : repo_t) (c0 : Option (List Char)) :
    ((download_repo_files fetchF arch repo c0).ret = 0 ↔
      ∃ s ∈ repo.servers,
        fetchF (prepare_url s repo.name arch filesSuffix) = true)
    ∧ fetchedUrls (download_repo_files fetchF arch repo c0).events
        = (dl_urls arch repo).take
            (((dl_urls arch repo).takeWhile (fun u => !(fetchF u))).length + 1)
    ∧ warnedUrls (download_repo_files fetchF arch repo c0).events
        = (dl_urls arch repo).takeWhile (fun u => !(fetchF u)) := by
  refine ⟨?_, ?_, ?_⟩
  · rw [download_repo_files, download_loop_ret]
    by_cases ha : (repo.servers.map
        (fun s => prepare_url s repo.name arch filesSuffix)).any fetchF = true
    · rw [if_pos ha]
      simp only [List.any_eq_true, List.mem_map] at ha
      obtain ⟨u, ⟨s, hs, rfl⟩, hu⟩ := ha
      exact ⟨fun _ => ⟨s, hs, hu⟩, fun _ => rfl⟩
    · rw [if_neg ha]
      constructor
      · intro h; exact absurd h (by decide)
      · intro ⟨s, hs, hf⟩
        exact absurd (by
          simp only [List.any_eq_true, List.mem_map]
          exact ⟨_, ⟨s, hs, rfl⟩, hf⟩) ha
  · exact download_loop_fetched fetchF arch repo.name repo.servers c0
  · exact download_loop_warned fetchF arch repo.name repo.servers c0

/-- Witness for C4 on the spec's `[bad1, bad2, good]` scenario: all three
URLs are attempted in order, the two failures are warned, and the run
succeeds. -/
theorem download_mirror_fallback_witness :
    fetchedUrls (download_repo_files (fun u => u = cs "good/r.files")
        (cs "x86_64") ⟨cs "r", [cs "bad1", cs "bad2", cs "good"]⟩ none).events
      = [cs "bad1/r.files", cs "bad2/r.files", cs "good/r.files"] ∧
    warnedUrls (download_repo_files (fun u => u = cs "good/r.files")
        (cs "x86_64") ⟨cs "r", [cs "bad1", cs "bad2", cs "good"]⟩ none).events
      = [cs "bad1/r.files", cs "bad2/r.files"] ∧
    (download_repo_files (fun u => u = cs "good/r.files")
        (cs "x86_64") ⟨cs "r", [cs "bad1", cs "bad2", cs "good"]⟩ none).ret
      = 0 := by
  have h := download_mirror_fallback (fun u => u = cs "good/r.files")
    (cs "x86_64") ⟨cs "r", [cs "bad1", cs "bad2", cs "good"]⟩ none
  exact ⟨h.2.1.trans (by decide), h.2.2.trans (by decide),
    h.1.mpr ⟨cs "good", by decide, by decide⟩⟩

/-- C5: `prepare_url` substitutes every occurrence of `$arch` with the
architecture string and every occurrence of `$repo` with the repository name
(the `strstr` guards change nothing, since replacing an absent token is the
identity), then appends `/<repo><suffix>`; the spec's concrete example
expands as stated. -/
theorem prepare_url_spec :
    (∀ url repo arch suffix : List Char,
      prepare_url url repo arch suffix =
        strreplace repovar repo (strreplace archvar arch url)
          ++ '/' :: (repo ++ suffix))
    ∧ prepare_url (cs "https://example.org/$repo/os/$arch") (cs "core")
        (cs "x86_64") (cs ".files")
        = cs "https://example.org/core/os/x86_64/core.files" := by
  constructor
  · intro url repo arch suffix
    simp only [prepare_url]
    by_cases h1 : hasSubstr archvar url = true
    · simp only [h1, if_true]
      by_cases h2 : hasSubstr repovar (strreplace archvar arch url) = true
      · simp [h2]
      · simp only [Bool.not_eq_true] at h2
        simp [h2, strreplace_of_not_hasSubstr _ _ _ h2]
    · simp only [Bool.not_eq_true] at h1
      rw [strreplace_of_not_hasSubstr archvar arch url h1]
      simp only [h1, Bool.false_eq_true, if_false]
      by_cases h2 : hasSubstr repovar url = true
      · simp [h2]
      · simp only [Bool.not_eq_true] at h2
        simp [h2, strreplace_of_not_hasSubstr _ _ _ h2]
  · decide

/-- Witness for C5: the general equation applied at the spec's example. -/
theorem prepare_url_spec_witness :
    prepare_url (cs "$arch/$repo") (cs "r") (cs "a") (cs ".files")
      = strreplace repovar (cs "r")
          (strreplace archvar (cs "a") (cs "$arch/$repo"))
        ++ '/' :: (cs "r" ++ cs ".files") :=
  prepare_url_spec.1 (cs "$arch/$repo") (cs "r") (cs "a") (cs ".files")

/-- C6 counterexample: the include scanner matches `Server` as a *prefix*
(`strncmp(line, server, strlen(server))`), so the line `Servers=foo` — whose
key is `Servers`, not exactly `Server` — still contributes the server `foo`
to the active repository, contradicting the claim that only lines whose key
is exactly `Server` contribute. -/
theorem include_prefix_match_cex :
    find_active_repos fs6 [cs "[a]", cs "Include=inc"]
      = some [⟨cs "a", [cs "foo"]⟩] ∧
    kvOf (cs "Servers=foo") = some (cs "Servers", cs "foo") ∧
    cs "Servers" ≠ serverTok := by decide

/-- C6 (amended): processing an `Include=` directive line appends, to the
active (last) repository and at the point of the directive, exactly the
values of the included file's lines that (after comment-stripping and
trimming) begin with the *prefix* `Server`, in the included file's order;
all other lines (headers, other keys, blanks) contribute nothing.  (The
hypothesis `hok` rules out prefix-matching lines without `=`, on which the
C dereferences `NULL`.) -/
theorem include_servers_appended (fs : Fs) (st : ParserState)
    (raw v : List Char) (ls : List (List Char)) (p : List repo_t × repo_t)
    (hkv : kvOf (strtrim (stripComment raw)) = some (includeTok, v))
    (hne : strtrim (stripComment raw) ≠ [])
    (hnh : isHeader (strtrim (stripComment raw)) = false)
    (hopt : st.in_options = false)
    (hp : splitLastRepos st.repos = some p)
    (hfs : fs v = some ls)
    (hok : ∀ raw2 ∈ ls,
        serverTok.isPrefixOf (strtrim (stripComment raw2)) = true →
        line_get_val (strtrim (stripComment raw2)) ≠ none) :
    stepLine fs st raw = some ⟨p.1 ++
        [⟨p.2.name, p.2.servers ++ includeContrib ls⟩], false⟩ := by
  rw [stepLine]
  simp only [if_neg hne, hnh, Bool.false_eq_true, if_false, hopt]
  simp only [kv_line, hkv]
  rw [if_neg (show ¬includeTok = serverTok from by decide), if_true, hp]
  show (add_servers_from_include fs p.2 v).map _ = _
  rw [add_servers_from_include, hfs]
  show Option.map _ (include_lines p.2 ls) = _
  rw [include_lines_spec ls p.2 hok]
  simp [hopt]

/-- Witness for C6 (amended) at a concrete include file mixing a header, a
`Server=` line, a prefix-matching `Servers=` line, a comment and an
unrelated key. -/
theorem include_servers_appended_witness :
    stepLine fs9w ⟨[⟨cs "a", [cs "s0"]⟩], false⟩ (cs "Include=inc")
      = some ⟨[⟨cs "a", [cs "s0", cs "u1", cs "u2"]⟩], false⟩ := by
  have h := include_servers_appended fs9w ⟨[⟨cs "a", [cs "s0"]⟩], false⟩
    (cs "Include=inc") (cs "inc")
    [cs "[sec]", cs "Server = u1", cs "# c", cs "Servers=u2", cs "Other=z"]
    ([], ⟨cs "a", [cs "s0"]⟩)
    (by decide) (by decide) (by decide) rfl (by decide) (by decide)
    (by decide)
  exact h.trans (by decide)

/-- C7 counterexample: the parser accepts `[]` twice, producing two
repositories both with the empty name — refuting both non-emptiness and
uniqueness of repository names. -/
theorem duplicate_empty_names_cex :
    find_active_repos fs0 [cs "[]", cs "[]"]
      = some [⟨[], []⟩, ⟨[], []⟩] ∧
    ¬ (([⟨[], []⟩, ⟨[], []⟩] : List repo_t).map repo_t.name).Nodup ∧
    (⟨[], []⟩ : repo_t).name = [] := by decide

/-- C7 (amended): the names of the repositories produced by
`find_active_repos` are exactly the file's non-`options` section header
names in order; hence whenever those header names are pairwise distinct and
non-empty, every produced repository has a non-empty name and no two share a
name. -/
theorem find_active_repos_unique_names (fs : Fs) (lines : List (List Char))
    (repos : List repo_t) (h : find_active_repos fs lines = some repos)
    (hnd : (sectionNamesOf lines).Nodup)
    (hne : ∀ n ∈ sectionNamesOf lines, n ≠ []) :
    repos.map repo_t.name = sectionNamesOf lines ∧
    (∀ r ∈ repos, r.name ≠ []) ∧ (repos.map repo_t.name).Nodup := by
  rw [find_active_repos, Option.map_eq_some'] at h
  obtain ⟨st, hst, hrep⟩ := h
  have hnames := parse_lines_names fs lines ⟨[], false⟩ st hst
  rw [hrep] at hnames
  simp only [List.map_nil, List.nil_append] at hnames
  refine ⟨hnames, ?_, ?_⟩
  · intro r hr
    exact hne r.name (hnames ▸ List.mem_map_of_mem repo_t.name hr)
  · rw [hnames]
    exact hnd

/-- Witness for C7 (amended) on a two-section config. -/
theorem find_active_repos_unique_names_witness :
    ([⟨cs "core", ([] : List (List Char))⟩, ⟨cs "extra", []⟩] : List repo_t).map
        repo_t.name = sectionNamesOf [cs "[core]", cs "[extra]"] ∧
    (∀ r ∈ ([⟨cs "core", ([] : List (List Char))⟩,
        ⟨cs "extra", []⟩] : List repo_t), r.name ≠ []) ∧
    (([⟨cs "core", ([] : List (List Char))⟩,
        ⟨cs "extra", []⟩] : List repo_t).map repo_t.name).Nodup :=
  find_active_repos_unique_names fs0 [cs "[core]", cs "[extra]"] _
    (by decide) (by decide) (by decide)

/-- C8: the download loop's trace is unlink-then-fetch (then warn, on
failure) for every attempted URL — the cached `<name>.files` is removed
immediately before *each* fetch attempt, not only the first — and after a
run in which every server of a non-empty server list failed, no cached file
is left for that repository. -/
theorem download_unlink_before_each_attempt (fetchF : List Char → Bool)
    (arch : List Char) (repo : repo_t) (c0 : Option (List Char)) :
    (download_repo_files fetchF arch repo c0).events
      = dl_expected_events fetchF repo.name
          ((dl_urls arch repo).take
            (((dl_urls arch repo).takeWhile (fun u => !(fetchF u))).length + 1))
    ∧ (repo.servers ≠ [] → (download_repo_files fetchF arch repo c0).ret = 1 →
        (download_repo_files fetchF arch repo c0).cache = none) := by
  constructor
  · exact download_loop_events fetchF arch repo.name repo.servers c0
  · intro hne hret
    have hr := download_loop_ret fetchF arch repo.name repo.servers c0
    by_cases ha : (repo.servers.map
        (fun s => prepare_url s repo.name arch filesSuffix)).any fetchF = true
    · rw [if_pos ha] at hr
      rw [download_repo_files] at hret
      rw [hret] at hr
      exact absurd hr (by decide)
    · simp only [Bool.not_eq_true] at ha
      exact download_loop_cache_stale fetchF arch repo.name c0
        repo.servers hne ha

/-- Witness for C8: two failing mirrors with a stale cached file; the trace
unlinks before each of the two fetches and the cache ends empty. -/
theorem download_unlink_before_each_attempt_witness :
    (download_repo_files (fun _ => false) (cs "x")
        ⟨cs "r", [cs "m1", cs "m2"]⟩ (some (cs "stale"))).events
      = [.unlink (cs "r"), .fetch (cs "m1/r.files"), .warn (cs "m1/r.files"),
         .unlink (cs "r"), .fetch (cs "m2/r.files"), .warn (cs "m2/r.files")] ∧
    (download_repo_files (fun _ => false) (cs "x")
        ⟨cs "r", [cs "m1", cs "m2"]⟩ (some (cs "stale"))).cache = none := by
  have h := download_unlink_before_each_attempt (fun _ => false) (cs "x")
    ⟨cs "r", [cs "m1", cs "m2"]⟩ (some (cs "stale"))
  exact ⟨h.1.trans (by decide), h.2 (by decide) (by decide)⟩

/-- C9: an `Include=` directive whose target file cannot be opened leaves the
parse exactly as if the directive line were absent: the enclosing repository
gains no servers from it and the whole remainder of the configuration still
parses to the same result.  (The failure is reported via `perror`, an I/O
effect outside the model.) -/
theorem include_open_failure_continues (fs : Fs) (st0 st1 : ParserState)
    (pre post : List (List Char)) (raw v : List Char)
    (hpre : parse_lines fs st0 pre = some st1)
    (hkv : kvOf (strtrim (stripComment raw)) = some (includeTok, v))
    (hne : strtrim (stripComment raw) ≠ [])
    (hnh : isHeader (strtrim (stripComment raw)) = false)
    (hopt : st1.in_options = false)
    (hrep : st1.repos ≠ [])
    (hfs : fs v = none) :
    parse_lines fs st0 (pre ++ raw :: post)
      = parse_lines fs st0 (pre ++ post) := by
  obtain ⟨p, hp⟩ := splitLastRepos_isSome st1.repos hrep
  have h1 : kv_line fs st1 (strtrim (stripComment raw)) = some st1 := by
    simp only [kv_line, hkv]
    rw [if_neg (show ¬includeTok = serverTok from by decide), if_true, hp]
    show (add_servers_from_include fs p.2 v).map _ = _
    rw [add_servers_from_include, hfs]
    show some { st1 with repos := p.1 ++ [p.2] } = some st1
    rw [← splitLastRepos_eq st1.repos p hp]
  have hstep : stepLine fs st1 raw = some st1 := by
    rw [stepLine]
    simp only [if_neg hne, hnh, Bool.false_eq_true, if_false, hopt]
    exact h1
  rw [parse_lines_append, parse_lines_append, hpre]
  show parse_lines fs st1 (raw :: post) = parse_lines fs st1 post
  rw [parse_lines, hstep]

/-- Witness for C9: a config whose `Include=missing` target cannot be opened
parses exactly like the config without that line; the `Server=` line after
the failed include still lands in `core`. -/
theorem include_open_failure_continues_witness :
    parse_lines fs9w ⟨[], false⟩
        ([cs "[core]"] ++ cs "Include=missing" :: [cs "Server=http://x"])
      = parse_lines fs9w ⟨[], false⟩ ([cs "[core]"] ++ [cs "Server=http://x"]) := by
  have h := include_open_failure_continues fs9w ⟨[], false⟩
    ⟨[⟨cs "core", []⟩], false⟩ [cs "[core]"] [cs "Server=http://x"]
    (cs "Include=missing") (cs "missing")
    (by decide) (by decide) (by decide) (by decide) rfl (by decide) rfl
  exact h

/-- C10: a repository with an empty server list: the downloader returns 1
with an empty action trace (no fetch call, no cached-file removal) and the
cache state untouched; in the orchestrator run the repository is never
transcoded and the overall exit status is non-zero. -/
theorem empty_server_list_fails (fetchF : List Char → Bool) (arch : List Char)
    (c0 : repo_t → Option (List Char)) (tc : repo_t → Int)
    (repos : List repo_t) (repo : repo_t)
    (hmem : repo ∈ repos) (hsrv : repo.servers = []) :
    download_repo_files fetchF arch repo (c0 repo) = ⟨1, [], c0 repo⟩ ∧
    repo ∉ (nosr_update true true
        (fun r => (download_repo_files fetchF arch r (c0 r)).ret) tc
        repos).transcoded ∧
    (nosr_update true true
        (fun r => (download_repo_files fetchF arch r (c0 r)).ret) tc
        repos).ret ≠ 0 := by
  have hdl : download_repo_files fetchF arch repo (c0 repo) = ⟨1, [], c0 repo⟩ := by
    rw [download_repo_files, hsrv]
    rfl
  refine ⟨hdl, ?_, ?_⟩
  · intro hmem2
    rw [nosr_update_ok] at hmem2
    have hcases := upd_loop_transcoded_mem
      (fun r => (download_repo_files fetchF arch r (c0 r)).ret) tc repos
      ⟨0, [], []⟩ repo hmem2
    rcases hcases with hin | hzero
    · simp at hin
    · have hzero2 : (download_repo_files fetchF arch repo (c0 repo)).ret = 0 :=
        hzero
      rw [hdl] at hzero2
      simp at hzero2
  · rw [nosr_update_ok]
    intro hz
    rw [upd_loop_ret_eq_zero] at hz
    have hrz : (download_repo_files fetchF arch repo (c0 repo)).ret = 0 :=
      (hz.2 repo hmem).1
    rw [hdl] at hrz
    simp at hrz

/-- Witness for C10 with one empty-listed repository. -/
theorem empty_server_list_fails_witness :
    download_repo_files (fun _ => true) (cs "x") ⟨cs "e", []⟩ none
      = ⟨1, [], none⟩ ∧
    (⟨cs "e", []⟩ : repo_t) ∉ (nosr_update true true
        (fun r => (download_repo_files (fun _ => true) (cs "x") r none).ret)
        (fun _ => 0) [⟨cs "e", []⟩]).transcoded ∧
    (nosr_update true true
        (fun r => (download_repo_files (fun _ => true) (cs "x") r none).ret)
        (fun _ => 0) [⟨cs "e", []⟩]).ret ≠ 0 :=
  empty_server_list_fails (fun _ => true) (cs "x") (fun _ => none)
    (fun _ => 0) [⟨cs "e", []⟩] ⟨cs "e", []⟩ (by decide) rfl

end Pkgfile
